import Mathlib

/-!
Shallow embedding of the k9s log core (internal/dao/log_item.go and
internal/dao/log_modifier.go).  Byte strings are modelled as `List Char`
(the payloads in scope are valid UTF-8 and the delimiters involved are
ASCII, so byte indexing and rune indexing coincide on all inputs the
claims touch).  The external collaborators — the ANSI colorizer, the
regexp engine, the fuzzy matcher and the zap-pretty printer — are opaque
capabilities carried in an `Externals` record, and the process-wide
modifier registry is threaded explicitly as a value.
-/

/-- Result type of a compiled regular expression's FindIndex: the leftmost
match span `[start, end)` in a line, or `none` when the line has no match. -/
abbrev RxMatcher := List Char → Option (Nat × Nat)

/-- A log-line transformation capability (the Go interface `LogModifier`). -/
abbrev LogModifier := List Char → List Char

/-- The process-wide modifier registry (the Go global `logModifiers` map),
modelled as a lookup function. -/
abbrev Registry := List Char → Option LogModifier

/-- Opaque external collaborators consumed by the core:
`colorize` models `color.ANSIColorize(text, code)`, `compile` models
`regexp.Compile` (returning a FindIndex capability or an error message),
and `fuzzyFind` models `fuzzy.Find` (hit index plus matched positions). -/
structure Externals where
  colorize : List Char → Nat → List Char
  compile : List Char → Except (List Char) RxMatcher
  fuzzyFind : List Char → List (List Char) → List (Nat × List Nat)

/-- Go `RegisterLogModifier`: insert/overwrite the capability under `name`. -/
def RegisterLogModifier (reg : Registry) (name : List Char) (m : LogModifier) :
    Registry :=
  fun k => if k = name then some m else reg k

/-- Go struct `LogItem`: one parsed container log line. -/
structure LogItem where
  Pod : List Char
  Container : List Char
  Timestamp : List Char
  SingleContainer : Bool
  Bytes : List Char
deriving DecidableEq, Repr

/-- Go `bytes.Split(s, sep)` with a one-byte separator: split around every
occurrence of `sep`; the result always has one more piece than there are
separators (in particular `goSplit sep [] = [[]]` like Go's `Split("", sep)`). -/
def goSplit (sep : Char) : List Char → List (List Char)
  | [] => [[]]
  | c :: rest =>
    if c = sep then [] :: goSplit sep rest
    else
      match goSplit sep rest with
      | [] => [[c]]
      | t :: ts => (c :: t) :: ts

/-- Go `bytes.Join(pieces, sep)` with a one-byte separator. -/
def goJoin (sep : Char) : List (List Char) → List Char
  | [] => []
  | [t] => t
  | t :: ts => t ++ sep :: goJoin sep ts

/-- Go `NewLogItem`: slice off the last byte unconditionally (`b[:len(b)-1]`,
which on an empty input is an out-of-range slice — modelled as `none`),
split the rest on spaces, take the first token as the timestamp and rejoin
the remaining tokens with single spaces as the message.  `goSplit` never
returns an empty list, so `headD`/`tail` mirror Go's `cols[0]`/`cols[1:]`. -/
def NewLogItem (b : List Char) : Option LogItem :=
  if b = [] then none
  else
    let cols := goSplit ' ' b.dropLast
    some { Pod := [], Container := [], SingleContainer := false,
           Timestamp := cols.headD [], Bytes := goJoin ' ' cols.tail }

/-- Character class of the source regexp `escPattern`, i.e. the set
`[a-zA-Z0-9_,;: \-\."#]`. -/
def isClassChar (c : Char) : Bool :=
  ('a' ≤ c && c ≤ 'z') || ('A' ≤ c && c ≤ 'Z') || ('0' ≤ c && c ≤ '9') ||
  c == '_' || c == ',' || c == ';' || c == ':' || c == ' ' || c == '-' ||
  c == '.' || c == '\"' || c == '#'

/-- Match of the source regexp ``(\[[a-zA-Z0-9_,;: \-\."#]+\[*)\]`` at the
head of the input.  Because the character class contains neither `[` nor
`]`, Go's leftmost-first semantics degenerate to: a literal `[`, a maximal
nonempty run of class characters, a maximal run of `[`, then a literal `]`.
Returns the capture group `$1` (everything but the final `]`) and the
remainder of the input after the match. -/
def escMatchAt (l : List Char) : Option (List Char × List Char) :=
  match l with
  | [] => none
  | c :: rest =>
    if c = '[' then
      let cs := rest.takeWhile isClassChar
      if cs.isEmpty then none
      else
        let r1 := rest.dropWhile isClassChar
        let bs := r1.takeWhile (fun b => b == '[')
        match r1.dropWhile (fun b => b == '[') with
        | ']' :: r3 => some ('[' :: (cs ++ bs), r3)
        | _ => none
    else none

/-- Leftmost match of `escPattern` in the input: the unmatched characters
before the match, the capture group, and the remainder after the match. -/
def escSplitFirst : List Char → Option (List Char × List Char × List Char)
  | [] => none
  | c :: rest =>
    match escMatchAt (c :: rest) with
    | some (g, r) => some ([], g, r)
    | none => (escSplitFirst rest).map (fun pgr => (c :: pgr.1, pgr.2.1, pgr.2.2))

/-- Go `escPattern.FindIndex` on the message: the span `[start, end)` of the
leftmost match, scanning from position `i`. -/
def escFindFrom : List Char → Nat → Option (Nat × Nat)
  | [], _ => none
  | c :: rest, i =>
    match escMatchAt (c :: rest) with
    | some (_, r) => some (i, i + ((c :: rest).length - r.length))
    | none => escFindFrom rest (i + 1)

/-- Go `escPattern.FindIndex` on a whole line. -/
def escFind (l : List Char) : Option (Nat × Nat) :=
  escFindFrom l 0

/-- Fuel-driven worker for `escPattern.ReplaceAll(bytes, "$1[]")`: replace
each successive leftmost match by its capture group followed by an empty
bracket pair, continuing after the match.  Every match consumes at least
three characters, so `fuel = length` always suffices. -/
def escReplaceAllGo : Nat → List Char → List Char
  | 0, l => l
  | fuel + 1, l =>
    match escSplitFirst l with
    | none => l
    | some (p, g, r) => p ++ g ++ '[' :: ']' :: escReplaceAllGo fuel r

/-- Go `escPattern.ReplaceAll(l.Bytes, matcher)` with `matcher = "$1[]"`. -/
def escReplaceAll (l : List Char) : List Char :=
  escReplaceAllGo l.length l

/-- Timestamp padding loop of `Render`: append spaces until the width
reaches 30 (never truncates). -/
def padTo30 (t : List Char) : List Char :=
  t ++ List.replicate (30 - t.length) ' '

/-- Assembly phase of Go `LogItem.Render` (everything before the modifier
lookup): optional colorized padded timestamp plus space, optional colorized
pod name plus `:`, optional colorized container name plus space, then the
escape-substituted message bytes. -/
def LogItem.assemble (E : Externals) (l : LogItem) (paint : Nat)
    (showTime : Bool) : List Char :=
  let bb : List Char :=
    if showTime then E.colorize (padTo30 l.Timestamp) 106 ++ [' '] else []
  let bb := if l.Pod ≠ [] then bb ++ E.colorize l.Pod paint ++ [':'] else bb
  let bb := if l.SingleContainer = false ∧ l.Container ≠ [] then
      bb ++ E.colorize l.Container paint ++ [' '] else bb
  bb ++ escReplaceAll l.Bytes

/-- Go `LogItem.Render`: assemble the line, then look the modifier name up
in the registry; a registered modifier's output is returned, an unknown
name passes the assembled line through unchanged. -/
def LogItem.Render (E : Externals) (reg : Registry) (l : LogItem)
    (paint : Nat) (showTime : Bool) (modifier : List Char) : List Char :=
  match reg modifier with
  | some f => f (l.assemble E paint showTime)
  | none => l.assemble E paint showTime

/-- Go collection type `LogItems`. -/
abbrev LogItems := List LogItem

/-- Go `LogItems.Lines`: render every record with the neutral color 0. -/
def LogItems.Lines (E : Externals) (reg : Registry) (l : LogItems)
    (showTime : Bool) (modifier : List Char) : List (List Char) :=
  l.map (fun item => item.Render E reg 0 showTime modifier)

/-- Go `LogItems.StrLines`: same rendered lines as text (string/byte
conversion is the identity in this model). -/
def LogItems.StrLines (E : Externals) (reg : Registry) (l : LogItems)
    (showTime : Bool) (modifier : List Char) : List (List Char) :=
  l.map (fun item => item.Render E reg 0 showTime modifier)

/-- Rune sum of Go `colorFor`'s loop `for _, r := range n { sum += int(r) }`. -/
def sumRunes (n : List Char) : Nat :=
  n.foldl (fun acc c => acc + c.toNat) 0

/-- Go `colorFor`: character-code sum reduced modulo 256; on the zero
residue, `207 + rand.Intn(10)` — the draw is modelled by the explicit
`randVal` argument. -/
def colorFor (n : List Char) (randVal : Nat) : Nat :=
  let c := sumRunes n % 256
  if c = 0 then 207 + randVal else c

/-- Modelled from the spec: `IsInverseSelector` is declared outside the
given sources; per the spec the inverse sentinel is a single leading
character (`!` in k9s). -/
def IsInverseSelector (q : List Char) : Bool :=
  match q with
  | '!' :: _ => true
  | _ => false

/-- Modelled from the spec: `IsFuzzySelector` is declared outside the given
sources; per the spec the fuzzy sentinel is a two-character prefix
(`-f` in k9s), stripped as `q[2:]` by `Filter`. -/
def IsFuzzySelector (q : List Char) : Bool :=
  match q with
  | '-' :: 'f' :: _ => true
  | _ => false

/-- Go `strings.TrimSpace`: drop whitespace from both ends. -/
def trimSpace (s : List Char) : List Char :=
  ((s.dropWhile Char.isWhitespace).reverse.dropWhile Char.isWhitespace).reverse

/-- Scan loop of Go `filterLogs` over the rendered lines, carrying the next
collection index `i`.  A line is kept when the matcher verdict disagrees
with `invert`; a kept matching line records the positions `locs[0] ≤ j <
locs[1]` of its leftmost match span, a kept non-matching (inverted) line
records an empty highlight list. -/
def filterLoop (m : RxMatcher) (invert : Bool) :
    List (List Char) → Nat → List Nat × List (List Nat)
  | [], _ => ([], [])
  | line :: rest, i =>
    let acc := filterLoop m invert rest (i + 1)
    match m line, invert with
    | some _, true => acc
    | some locs, false =>
      (i :: acc.1, List.range' locs.1 (locs.2 - locs.1) :: acc.2)
    | none, true => (i :: acc.1, [] :: acc.2)
    | none, false => acc

/-- The `(?i)` flag prepended by `filterLogs` before compiling. -/
def ciMark : List Char := ['(', '?', 'i', ')']

/-- Go `LogItems.filterLogs`: strip the inverse sentinel when present,
compile the remainder case-insensitively (an error is returned as-is), and
scan the rendered lines. -/
def LogItems.filterLogs (E : Externals) (reg : Registry) (l : LogItems)
    (q : List Char) (showTime : Bool) (modifier : List Char) :
    Except (List Char) (List Nat × List (List Nat)) :=
  let invert := IsInverseSelector q
  let q' := if invert then q.tail else q
  match E.compile (ciMark ++ q') with
  | .error e => .error e
  | .ok m => .ok (filterLoop m invert (l.Lines E reg showTime modifier) 0)

/-- Go `LogItems.fuzzyFilter`: trim the query, run the fuzzy matcher over
the rendered strings, return hit indices and matched positions. -/
def LogItems.fuzzyFilter (E : Externals) (reg : Registry) (l : LogItems)
    (q : List Char) (showTime : Bool) (modifier : List Char) :
    List Nat × List (List Nat) :=
  let q := trimSpace q
  let mm := E.fuzzyFind q (l.StrLines E reg showTime modifier)
  (mm.map (fun h => h.1), mm.map (fun h => h.2))

/-- Go `LogItems.Filter`: the empty query yields empty results and no
error; a fuzzy-sentinel query delegates to the fuzzy filter (never fails);
anything else delegates to the regex filter, whose compilation may fail. -/
def LogItems.Filter (E : Externals) (reg : Registry) (l : LogItems)
    (q : List Char) (showTime : Bool) (modifier : List Char) :
    Except (List Char) (List Nat × List (List Nat)) :=
  if q = [] then .ok ([], [])
  else if IsFuzzySelector q then
    .ok (l.fuzzyFilter E reg (trimSpace (q.drop 2)) showTime modifier)
  else l.filterLogs E reg q showTime modifier

/-- Modelled from the spec: the set of "every matched span" of a compiled
pattern in a line (the semantics of Go `FindAllIndex`, which the source
does not call — it calls `FindIndex`).  Repeatedly find the leftmost match
in the remaining suffix, advancing past each match. -/
def allMatchesGo (m : RxMatcher) (s : List Char) : Nat → Nat → List (Nat × Nat)
  | 0, _ => []
  | fuel + 1, off =>
    match m (s.drop off) with
    | none => []
    | some (a, b) =>
      (off + a, off + b) :: allMatchesGo m s fuel (max (off + b) (off + 1))

/-- Modelled from the spec: the full set of individual positions covered by
every matched span of the pattern in the line. -/
def allMatchPositions (m : RxMatcher) (s : List Char) : List Nat :=
  (allMatchesGo m s (s.length + 1) 0).flatMap
    (fun ab => List.range' ab.1 (ab.2 - ab.1))

/-- Go `ZapPrettyLogModifier`, carrying its external collaborator
`zappretty.PrettyLine` as an opaque fallible capability. -/
structure ZapPrettyLogModifier where
  prettyLine : List Char → Except (List Char) (List Char)

/-- Go `ZapPrettyLogModifier.Modify`: pretty-print the line; on error
return the original input unchanged (fail-open), otherwise the
pretty-printed bytes. -/
def ZapPrettyLogModifier.Modify (z : ZapPrettyLogModifier)
    (line : List Char) : List Char :=
  match z.prettyLine line with
  | .error _ => line
  | .ok pretty => pretty

/-! ### Auxiliary lemmas -/

theorem goSplit_eq_single {sep : Char} : ∀ b : List Char, sep ∉ b → goSplit sep b = [b] := by
  intro b
  induction b with
  | nil => intro _; rfl
  | cons c rest ih =>
    intro h
    have hc : ¬ c = sep := fun e => h (by simp [e])
    have hr := ih (fun hm => h (List.mem_cons_of_mem _ hm))
    simp [goSplit, hc, hr]

theorem escReplaceAllGo_none (fuel : Nat) (s : List Char)
    (hs : escSplitFirst s = none) : escReplaceAllGo fuel s = s := by
  cases fuel with
  | zero => rfl
  | succ k => simp [escReplaceAllGo, hs]

theorem escFindFrom_none_shift : ∀ (l : List Char) (i j : Nat),
    escFindFrom l i = none → escFindFrom l j = none := by
  intro l
  induction l with
  | nil => intro i j _; rfl
  | cons c rest ih =>
    intro i j h
    cases hm : escMatchAt (c :: rest) with
    | some gr => simp [escFindFrom, hm] at h
    | none =>
      simp only [escFindFrom, hm] at h ⊢
      exact ih _ _ h

theorem escSplitFirst_of_find_none : ∀ l : List Char,
    escFind l = none → escSplitFirst l = none := by
  intro l
  induction l with
  | nil => intro _; rfl
  | cons c rest ih =>
    intro h
    cases hm : escMatchAt (c :: rest) with
    | some gr => simp [escFind, escFindFrom, hm] at h
    | none =>
      simp only [escFind, escFindFrom, hm] at h
      have h0 : escFind rest = none := escFindFrom_none_shift rest 1 0 h
      simp [escSplitFirst, hm, ih h0]

theorem exists_getElem_cons_split {α : Type} (L : α) (rest : List α)
    (P : α → Prop) (n i : Nat) :
    (∃ j L', (L :: rest)[j]? = some L' ∧ i = n + j ∧ P L') ↔
      ((i = n ∧ P L) ∨
        (∃ j L', rest[j]? = some L' ∧ i = (n + 1) + j ∧ P L')) := by
  constructor
  · rintro ⟨j, L', hj, hi, hP⟩
    cases j with
    | zero =>
      left
      simp only [List.getElem?_cons_zero, Option.some.injEq] at hj
      subst hj
      exact ⟨by omega, hP⟩
    | succ j =>
      right
      exact ⟨j, L', by simpa using hj, by omega, hP⟩
  · rintro (⟨hi, hP⟩ | ⟨j, L', hj, hi, hP⟩)
    · exact ⟨0, L, by simp, by omega, hP⟩
    · exact ⟨j + 1, L', by simpa using hj, by omega, hP⟩

theorem mem_filterLoop_fst (m : RxMatcher) (inv : Bool) :
    ∀ (lines : List (List Char)) (n i : Nat),
    i ∈ (filterLoop m inv lines n).1 ↔
      ∃ j L, lines[j]? = some L ∧ i = n + j ∧ ((m L).isSome = !inv) := by
  intro lines
  induction lines with
  | nil => intro n i; simp [filterLoop]
  | cons L rest ih =>
    intro n i
    rw [exists_getElem_cons_split L rest (fun L' => (m L').isSome = !inv) n i]
    cases hm : m L <;> cases inv <;>
      simp [filterLoop, hm, ih, List.mem_cons]

theorem filterLoop_fst_ge (m : RxMatcher) (inv : Bool)
    (lines : List (List Char)) (n i : Nat)
    (h : i ∈ (filterLoop m inv lines n).1) : n ≤ i := by
  rw [mem_filterLoop_fst] at h
  obtain ⟨j, L, _, hi, _⟩ := h
  omega

theorem filterLoop_length (m : RxMatcher) (inv : Bool) :
    ∀ (lines : List (List Char)) (n : Nat),
    (filterLoop m inv lines n).1.length = (filterLoop m inv lines n).2.length := by
  intro lines
  induction lines with
  | nil => intro n; rfl
  | cons L rest ih =>
    intro n
    cases hm : m L <;> cases inv <;> simp [filterLoop, hm, ih]

theorem filterLoop_snd_invert (m : RxMatcher) :
    ∀ (lines : List (List Char)) (n : Nat) (h : List Nat),
    h ∈ (filterLoop m true lines n).2 → h = [] := by
  intro lines
  induction lines with
  | nil => intro n h hh; simp [filterLoop] at hh
  | cons L rest ih =>
    intro n h hh
    cases hm : m L with
    | some locs =>
      simp only [filterLoop, hm] at hh
      exact ih (n + 1) h hh
    | none =>
      simp only [filterLoop, hm, List.mem_cons] at hh
      rcases hh with hh | hh
      · exact hh
      · exact ih (n + 1) h hh

theorem filterLoop_zip_mem (m : RxMatcher) :
    ∀ (lines : List (List Char)) (n : Nat) (pr : Nat × List Nat),
    pr ∈ (filterLoop m false lines n).1.zip (filterLoop m false lines n).2 →
      ∃ L s e, lines[pr.1 - n]? = some L ∧ m L = some (s, e) ∧
        pr.2 = List.range' s (e - s) := by
  intro lines
  induction lines with
  | nil => intro n pr hpr; simp [filterLoop] at hpr
  | cons L rest ih =>
    intro n pr hpr
    cases hm : m L with
    | some locs =>
      simp only [filterLoop, hm, List.zip_cons_cons, List.mem_cons] at hpr
      rcases hpr with hpr | hpr
      · subst hpr
        refine ⟨L, locs.1, locs.2, ?_, by simp [hm], rfl⟩
        simp
      · have hge : n + 1 ≤ pr.1 :=
          filterLoop_fst_ge m false rest (n + 1) pr.1 (List.of_mem_zip hpr).1
        obtain ⟨L', s, e, h1, h2, h3⟩ := ih (n + 1) pr hpr
        refine ⟨L', s, e, ?_, h2, h3⟩
        have hidx : pr.1 - n = (pr.1 - (n + 1)) + 1 := by omega
        rw [hidx, List.getElem?_cons_succ]
        exact h1
    | none =>
      simp only [filterLoop, hm] at hpr
      have hge : n + 1 ≤ pr.1 :=
        filterLoop_fst_ge m false rest (n + 1) pr.1 (List.of_mem_zip hpr).1
      obtain ⟨L', s, e, h1, h2, h3⟩ := ih (n + 1) pr hpr
      refine ⟨L', s, e, ?_, h2, h3⟩
      have hidx : pr.1 - n = (pr.1 - (n + 1)) + 1 := by omega
      rw [hidx, List.getElem?_cons_succ]
      exact h1

/-! ### Concrete scenario used by witnesses and the counterexample -/

/-- Faithful model of the compiled Go regexp `(?i)a`: FindIndex returns the
span of the leftmost occurrence of `a` or `A`. -/
def matcherA : RxMatcher :=
  fun s => (s.findIdx? (fun c => c == 'a' || c == 'A')).map (fun i => (i, i + 1))

/-- The empty modifier registry. -/
def reg0 : Registry := fun _ => none

/-- Concrete externals: identity colorizer, a regexp compiler defined on the
single pattern `(?i)a` (anything else is a compilation error), and a fuzzy
matcher returning no hits. -/
def E0 : Externals :=
  { colorize := fun s _ => s
  , compile := fun p =>
      if p = ('(' :: '?' :: 'i' :: ')' :: ['a']) then .ok matcherA
      else .error ['b', 'a', 'd']
  , fuzzyFind := fun _ _ => [] }

/-- Externals whose regexp compiler always fails. -/
def Ebad : Externals :=
  { colorize := fun s _ => s
  , compile := fun _ => .error ['b', 'a', 'd']
  , fuzzyFind := fun _ _ => [] }

/-- A log record whose message `aba` contains two matches of `(?i)a`. -/
def item0 : LogItem :=
  { Pod := [], Container := [], Timestamp := [], SingleContainer := false,
    Bytes := ['a', 'b', 'a'] }

/-- A zap-pretty modifier whose external pretty-printer always fails. -/
def zapErr : ZapPrettyLogModifier :=
  { prettyLine := fun _ => .error ['e'] }

/-! ### Claim theorems -/

/-- C3: parsing the raw stream line `"TS msg1 msg2\n"` yields
`Timestamp == "TS"` and `Bytes == "msg1 msg2"`; and for any raw content
with no internal space, the entire content before the trailing newline is
absorbed into `Timestamp` and `Bytes` becomes empty, without error. -/
theorem C3_newLogItem_parse :
    NewLogItem ("TS msg1 msg2\n".data) =
      some { Pod := [], Container := [], SingleContainer := false,
             Timestamp := "TS".data, Bytes := "msg1 msg2".data } ∧
    ∀ b : List Char, ' ' ∉ b →
      NewLogItem (b ++ ['\n']) =
        some { Pod := [], Container := [], SingleContainer := false,
               Timestamp := b, Bytes := [] } := by
  refine ⟨by decide, ?_⟩
  intro b hb
  have hne : b ++ ['\n'] ≠ [] := by simp
  unfold NewLogItem
  rw [if_neg hne]
  have hd : (b ++ ['\n']).dropLast = b := by simp
  rw [hd, goSplit_eq_single b hb]
  rfl

/-- Witness for C3 at the concrete no-space content `abc`. -/
theorem C3_newLogItem_parse_witness :
    (' ' ∉ "abc".data) ∧
    NewLogItem ("abc".data ++ ['\n']) =
      some { Pod := [], Container := [], SingleContainer := false,
             Timestamp := "abc".data, Bytes := [] } :=
  ⟨by decide, C3_newLogItem_parse.2 "abc".data (by decide)⟩

/-- C10: `NewLogItem` is undefined on empty input (the `b[:len(b)-1]` slice
is out of range), total on any non-empty input, and unconditionally removes
exactly the last byte before splitting — the parse result never depends on
what the last byte is, newline or not. -/
theorem C10_last_byte_unconditional :
    NewLogItem [] = none ∧
    (∀ b : List Char, b ≠ [] → (NewLogItem b).isSome = true) ∧
    (∀ (b : List Char) (c c' : Char),
      NewLogItem (b ++ [c]) = NewLogItem (b ++ [c'])) := by
  refine ⟨rfl, ?_, ?_⟩
  · intro b hb
    unfold NewLogItem
    rw [if_neg hb]
    rfl
  · intro b c c'
    unfold NewLogItem
    rw [if_neg (by simp : ¬(b ++ [c] = [])), if_neg (by simp : ¬(b ++ [c'] = []))]
    simp

/-- Witness for C10 on the non-empty input `x` (no trailing newline). -/
theorem C10_last_byte_unconditional_witness :
    (("x".data : List Char) ≠ []) ∧ (NewLogItem "x".data).isSome = true :=
  ⟨by decide, C10_last_byte_unconditional.2.1 "x".data (by decide)⟩

/-- C4: for an identity whose code-point sum is nonzero modulo 256,
`colorFor` returns exactly that sum modulo 256, which lies below 256, and
the result is independent of the random draw (deterministic across calls). -/
theorem C4_colorFor_deterministic (n : List Char) (r : Nat)
    (h : sumRunes n % 256 ≠ 0) :
    colorFor n r = sumRunes n % 256 ∧ colorFor n r < 256 ∧
    ∀ r', colorFor n r = colorFor n r' := by
  refine ⟨by simp [colorFor, h], ?_, by intro r'; simp [colorFor, h]⟩
  simp only [colorFor, if_neg h]
  exact Nat.mod_lt _ (by norm_num)

/-- Witness for C4 at the identity `abc` (sum 294, residue 38). -/
theorem C4_colorFor_deterministic_witness :
    sumRunes "abc".data % 256 ≠ 0 ∧
    colorFor "abc".data 0 = sumRunes "abc".data % 256 :=
  ⟨by decide, (C4_colorFor_deterministic "abc".data 0 (by decide)).1⟩

/-- C6: after registering a modifier under a name, rendering with that
name invokes it on the assembled line and returns its output; rendering
with a name the registry does not know returns the assembled line
unchanged. -/
theorem C6_registry_render (E : Externals) (reg : Registry) (X : List Char)
    (f : LogModifier) (l : LogItem) (paint : Nat) (showTime : Bool) :
    LogItem.Render E (RegisterLogModifier reg X f) l paint showTime X =
      f (l.assemble E paint showTime) ∧
    (reg X = none →
      LogItem.Render E reg l paint showTime X = l.assemble E paint showTime) := by
  constructor
  · simp [LogItem.Render, RegisterLogModifier]
  · intro h
    simp [LogItem.Render, h]

/-- Witness for C6: the empty registry knows no name, so rendering passes
the assembled line through. -/
theorem C6_registry_render_witness :
    (reg0 ['m'] = none) ∧
    LogItem.Render E0 reg0 item0 0 false ['m'] = item0.assemble E0 0 false :=
  ⟨rfl, (C6_registry_render E0 reg0 ['m'] id item0 0 false).2 rfl⟩

/-- C8: with `showTime == false` the rendered output contains no timestamp
column — two records differing only in their `Timestamp` field render to
identical bytes, for every colorizer, registry, color code and modifier. -/
theorem C8_timestamp_noninterference (E : Externals) (reg : Registry)
    (l : LogItem) (ts : List Char) (paint : Nat) (modifier : List Char) :
    LogItem.Render E reg { l with Timestamp := ts } paint false modifier =
      LogItem.Render E reg l paint false modifier := rfl

/-- C9: the zap-pretty modifier's `Modify` is total and fail-open: when the
external pretty-printer reports an error the original bytes come back
unchanged and no error reaches the caller; otherwise the pretty-printed
bytes come back. -/
theorem C9_zap_fail_open (z : ZapPrettyLogModifier) (line : List Char) :
    (∀ e, z.prettyLine line = .error e → z.Modify line = line) ∧
    (∀ p, z.prettyLine line = .ok p → z.Modify line = p) := by
  constructor <;> intro x hx <;> simp [ZapPrettyLogModifier.Modify, hx]

/-- Witness for C9 with an always-failing pretty-printer. -/
theorem C9_zap_fail_open_witness :
    (zapErr.prettyLine ['a'] = .error ['e']) ∧ zapErr.Modify ['a'] = ['a'] :=
  ⟨rfl, (C9_zap_fail_open zapErr ['a']).1 ['e'] rfl⟩

/-- C7: the escape-substitution pass is the identity on every message in
which the pattern finds no match; the message `a [warn] b` is rewritten to
`a [warn[] b` (an empty bracket pair inserted adjacent to the content), the
original tag's match boundary there is the span `[2, 8)`, and re-scanning
the rewritten text with the same pattern no longer yields that boundary
(the leftmost match is now the wider escaped span `[2, 9)`). -/
theorem C7_escape_substitution :
    (∀ s : List Char, escFind s = none → escReplaceAll s = s) ∧
    escReplaceAll ("a [warn] b".data) = "a [warn[] b".data ∧
    escFind ("a [warn] b".data) = some (2, 8) ∧
    escFind ("a [warn[] b".data) = some (2, 9) ∧
    escFind (escReplaceAll ("a [warn] b".data)) ≠ some (2, 8) := by
  refine ⟨?_, by decide, by decide, by decide, by decide⟩
  intro s h
  exact escReplaceAllGo_none s.length s (escSplitFirst_of_find_none s h)

/-- Witness for C7's identity part on the bracket-free message `hi`. -/
theorem C7_escape_substitution_witness :
    escFind ("hi".data) = none ∧ escReplaceAll ("hi".data) = "hi".data :=
  ⟨by decide, C7_escape_substitution.1 "hi".data (by decide)⟩

/-- C5: `Filter` with the empty query returns empty matched-index and
highlight sets and no error, for every collection and settings; and when
the regexp compilation of a non-fuzzy query fails, `Filter` returns that
compilation error and no results. -/
theorem C5_empty_query_and_bad_pattern :
    (∀ (E : Externals) (reg : Registry) (l : LogItems) (showTime : Bool)
        (modifier : List Char),
      LogItems.Filter E reg l [] showTime modifier = .ok ([], [])) ∧
    (∀ (E : Externals) (reg : Registry) (l : LogItems) (q : List Char)
        (showTime : Bool) (modifier : List Char) (err : List Char),
      q ≠ [] → IsFuzzySelector q = false →
      E.compile (ciMark ++ (if IsInverseSelector q then q.tail else q)) =
        .error err →
      LogItems.Filter E reg l q showTime modifier = .error err) := by
  constructor
  · intro E reg l showTime modifier
    rfl
  · intro E reg l q showTime modifier err hq hf hc
    simp [LogItems.Filter, LogItems.filterLogs, hq, hf, hc]

/-- Witness for C5: the empty query on a concrete collection, and a query
whose compilation fails under an always-failing compiler. -/
theorem C5_empty_query_and_bad_pattern_witness :
    LogItems.Filter E0 reg0 [item0] [] false [] = .ok ([], []) ∧
    LogItems.Filter Ebad reg0 [item0] ['x'] false [] = .error ['b', 'a', 'd'] :=
  ⟨C5_empty_query_and_bad_pattern.1 E0 reg0 [item0] false [],
   C5_empty_query_and_bad_pattern.2 Ebad reg0 [item0] ['x'] false []
     ['b', 'a', 'd'] (by decide) (by decide) rfl⟩

/-- C2: for any pattern `P` (itself carrying no inverse sentinel) that
compiles, over any collection and settings, the matched-index set of
inverse-filtering with `P` is the complement, within the collection's
index range, of the matched-index set of plain filtering with `P`: the two
sets are disjoint and their union is the full index range. -/
theorem C2_inverse_complement (E : Externals) (reg : Registry) (l : LogItems)
    (P : List Char) (showTime : Bool) (modifier : List Char) (m : RxMatcher)
    (hP : IsInverseSelector P = false)
    (hc : E.compile (ciMark ++ P) = .ok m) :
    ∃ inv plain : List Nat × List (List Nat),
      LogItems.filterLogs E reg l ('!' :: P) showTime modifier = .ok inv ∧
      LogItems.filterLogs E reg l P showTime modifier = .ok plain ∧
      (∀ i, ¬(i ∈ inv.1 ∧ i ∈ plain.1)) ∧
      (∀ i, i < l.length ↔ (i ∈ inv.1 ∨ i ∈ plain.1)) := by
  refine ⟨filterLoop m true (l.Lines E reg showTime modifier) 0,
          filterLoop m false (l.Lines E reg showTime modifier) 0, ?_, ?_, ?_, ?_⟩
  · simp [LogItems.filterLogs, IsInverseSelector, hc]
  · simp [LogItems.filterLogs, hP, hc]
  · rintro i ⟨h1, h2⟩
    rw [mem_filterLoop_fst] at h1 h2
    obtain ⟨j, L, hj, hi, hk⟩ := h1
    obtain ⟨j', L', hj', hi', hk'⟩ := h2
    have hjj : j = j' := by omega
    subst hjj
    rw [hj] at hj'
    have hLL : L = L' := by injection hj'
    subst hLL
    simp [hk] at hk'
  · have hlen : (l.Lines E reg showTime modifier).length = l.length := by
      simp [LogItems.Lines]
    intro i
    constructor
    · intro hi
      have hi' : i < (l.Lines E reg showTime modifier).length := by omega
      obtain ⟨L, hL⟩ : ∃ L, (l.Lines E reg showTime modifier)[i]? = some L :=
        ⟨_, List.getElem?_eq_getElem hi'⟩
      cases hS : (m L).isSome
      · left
        rw [mem_filterLoop_fst]
        exact ⟨i, L, hL, by omega, by simp [hS]⟩
      · right
        rw [mem_filterLoop_fst]
        exact ⟨i, L, hL, by omega, by simp [hS]⟩
    · rintro (h | h) <;> rw [mem_filterLoop_fst] at h <;>
        obtain ⟨j, L, hj, hi, _⟩ := h <;>
        [skip; skip] <;>
        · have hjlt : j < (l.Lines E reg showTime modifier).length := by
            by_contra hcon
            rw [List.getElem?_eq_none (by omega)] at hj
            cases hj
          omega

/-- Witness for C2 at the concrete collection `[item0]` and pattern `a`. -/
theorem C2_inverse_complement_witness :
    ∃ inv plain : List Nat × List (List Nat),
      LogItems.filterLogs E0 reg0 [item0] ('!' :: ['a']) false [] = .ok inv ∧
      LogItems.filterLogs E0 reg0 [item0] ['a'] false [] = .ok plain ∧
      (∀ i, ¬(i ∈ inv.1 ∧ i ∈ plain.1)) ∧
      (∀ i, i < ([item0] : LogItems).length ↔ (i ∈ inv.1 ∨ i ∈ plain.1)) :=
  C2_inverse_complement E0 reg0 [item0] ['a'] false [] matcherA (by decide) rfl

/-- Counterexample to C1 as stated: on the collection `[item0]` (one line
rendering to `aba`) with query `a`, the code returns the highlight set
`[0]` for the kept line, although the full set of individual positions
covered by every matched span of the compiled pattern `(?i)a` in that line
is `[0, 2]` — the source calls `FindIndex`, which reports only the
leftmost span, so the second match at position 2 contributes nothing. -/
theorem C1_counterexample :
    LogItems.filterLogs E0 reg0 [item0] ['a'] false [] = .ok ([0], [[0]]) ∧
    LogItems.Lines E0 reg0 [item0] false [] = [['a', 'b', 'a']] ∧
    allMatchPositions matcherA ['a', 'b', 'a'] = [0, 2] ∧
    ([[0]] : List (List Nat)) ≠ [[0, 2]] :=
  ⟨rfl, rfl, by decide, by decide⟩

/-- C1 as amended: for every collection and every regex-path query whose
pattern compiles, on each kept line in the non-inverted case the returned
highlight set is the full set of individual positions covered by the
single leftmost matched span `[start, end)` that `FindIndex` reports for
that rendered line (later matches contribute no positions); and on every
kept line in the inverted case the highlight set is empty. -/
theorem C1_highlights_leftmost_span (E : Externals) (reg : Registry)
    (l : LogItems) (q : List Char) (showTime : Bool) (modifier : List Char)
    (m : RxMatcher)
    (hc : E.compile (ciMark ++ (if IsInverseSelector q then q.tail else q)) =
      .ok m) :
    ∃ ms hs,
      LogItems.filterLogs E reg l q showTime modifier = .ok (ms, hs) ∧
      ms.length = hs.length ∧
      (IsInverseSelector q = false →
        ∀ pr ∈ ms.zip hs, ∃ L s e,
          (l.Lines E reg showTime modifier)[pr.1]? = some L ∧
          m L = some (s, e) ∧
          ∀ p, p ∈ pr.2 ↔ (s ≤ p ∧ p < e)) ∧
      (IsInverseSelector q = true → ∀ h ∈ hs, h = []) := by
  refine ⟨(filterLoop m (IsInverseSelector q)
            (l.Lines E reg showTime modifier) 0).1,
          (filterLoop m (IsInverseSelector q)
            (l.Lines E reg showTime modifier) 0).2, ?_, ?_, ?_, ?_⟩
  · simp [LogItems.filterLogs, hc]
  · exact filterLoop_length m (IsInverseSelector q) _ 0
  · intro hinv pr hpr
    rw [hinv] at hpr
    obtain ⟨L, s, e, h1, h2, h3⟩ :=
      filterLoop_zip_mem m (l.Lines E reg showTime modifier) 0 pr hpr
    refine ⟨L, s, e, by simpa using h1, h2, ?_⟩
    intro p
    rw [h3, List.mem_range'_1]
    omega
  · intro hinv h hh
    rw [hinv] at hh
    exact filterLoop_snd_invert m _ 0 h hh

/-- Witness for the amended C1 at the concrete collection `[item0]` and
query `a`. -/
theorem C1_highlights_leftmost_span_witness :
    ∃ ms hs,
      LogItems.filterLogs E0 reg0 [item0] ['a'] false [] = .ok (ms, hs) ∧
      ms.length = hs.length ∧
      (IsInverseSelector ['a'] = false →
        ∀ pr ∈ ms.zip hs, ∃ L s e,
          (LogItems.Lines E0 reg0 [item0] false [])[pr.1]? = some L ∧
          matcherA L = some (s, e) ∧
          ∀ p, p ∈ pr.2 ↔ (s ≤ p ∧ p < e)) ∧
      (IsInverseSelector ['a'] = true → ∀ h ∈ hs, h = []) :=
  C1_highlights_leftmost_span E0 reg0 [item0] ['a'] false [] matcherA rfl
